import Mathlib

/-!
Shallow embedding of `src/measure_timeseries_throughput.py` and `src/utils.py`
from the pacificclimate/netcdf-tutorial repository, together with theorems
settling the specification claims.

Conventions of the embedding:
* Python floats are modelled as exact rationals (`ℚ`); the non-finite numpy
  values the rate computation can produce are modelled by `NpFloat`.
* Fallible operations (assertions, `random.choice` on an empty sequence,
  `range` applied to a string) are modelled with `Except Fault`.
* The random source is an external parameter: `random.choice(seq)` is modelled
  as indexing `seq` at `rng % seq.length` for a caller-supplied `rng`.
* A Python `set` built from a list is modelled as `List.dedup`; membership,
  emptiness and singleton-ness — the only facts the claims use — do not depend
  on iteration order.
-/

namespace NetcdfTutorial

/-- The failure modes of the script, each corresponding to an unhandled Python
exception named in the spec. -/
inductive Fault where
  | assertLat
  | assertLon
  | emptyChoice
  | typeError
  | indexError
deriving DecidableEq

/-- A variable stored in a gridded file: length of its time axis, bytes per
element of its on-disk dtype, and its contents as a function of
(time, y, x) indices. -/
structure VarData where
  tlen : ℕ
  itemsize : ℕ
  data : ℕ → ℕ → ℕ → ℚ

/-- An open dataset handle (`self.dst`): maps a variable name to its data,
modelling `dst[var]`. -/
structure Dataset where
  vars : String → VarData

/-- A numpy array as the extraction functions produce it: its shape, the byte
size of one element (`dtype.itemsize`), and its contents. -/
structure NDArr where
  shape : List ℕ
  itemsize : ℕ
  data : List ℚ

/-- The two values `--method` can take (argparse restricts the choices). -/
inductive Method where
  | direct
  | iterative
deriving DecidableEq

/-- The value of a numpy float64 scalar as this program's rate computation
can produce it: a finite value (modelled exactly), infinity, or nan. -/
inductive NpFloat where
  | finite (q : ℚ)
  | inf
  | nan
deriving DecidableEq

/-- `ThroughputMeter.bytes_per_second` (measure_timeseries_throughput.py
lines 22-26): `bytes_ = np.prod(array.shape) * array.dtype.itemsize` divided
by the elapsed seconds.  The division is unguarded in the source, and
`np.prod` makes the numerator a numpy scalar, so dividing by a zero elapsed
time follows numpy float semantics: it emits a RuntimeWarning and evaluates
to inf for a positive byte count and to nan for a zero byte count, instead
of raising an exception. -/
def bytes_per_second (array : NDArr) (seconds : ℚ) : NpFloat :=
  let bytes_ : ℕ := array.shape.prod * array.itemsize
  if seconds = 0 then (if bytes_ = 0 then .nan else .inf)
  else .finite ((bytes_ : ℚ) / seconds)

/-- `extract_direct` (lines 132-133): `dst[var][:, y, x]`, a single bulk read
of the whole time axis at the fixed point.  The result keeps the stored
variable's dtype, hence its native `itemsize`. -/
def extract_direct (dst : Dataset) (var : String) (x y : ℕ) : NDArr :=
  let v := dst.vars var
  { shape := [v.tlen]
    itemsize := v.itemsize
    data := (List.range v.tlen).map (fun i => v.data i y x) }

/-- `extract_iterative` (lines 125-129): `a = np.empty(shape=(zlen))` — a
float64 buffer, itemsize 8, modelled with initial contents 0 — then one
single-element read per timestep written into the buffer (`a[i] = dst[var][i, y, x]`). -/
def extract_iterative (dst : Dataset) (var : String) (x y zlen : ℕ) : NDArr :=
  let v := dst.vars var
  { shape := [zlen]
    itemsize := 8
    data := (List.range zlen).foldl (fun a i => a.set i (v.data i y x))
      (List.replicate zlen 0) }

/-- Total byte count of an array as `bytes_per_second` computes it:
`np.prod(array.shape) * array.dtype.itemsize`. -/
def totalBytes (a : NDArr) : ℕ := a.shape.prod * a.itemsize

/-- Claim C2: for every array with shape S and per-element byte size B and
every elapsed time T ≠ 0, `ThroughputMeter.bytes_per_second` returns exactly
(product of S multiplied by B) divided by T. -/
theorem bytes_per_second_exact (a : NDArr) (T : ℚ) (hT : T ≠ 0) :
    bytes_per_second a T = .finite (((a.shape.prod : ℚ) * (a.itemsize : ℚ)) / T) := by
  simp [bytes_per_second, hT]

/-- Witness for C2: shape (100,), item size 8 bytes, elapsed 2 seconds gives
400 bytes/sec. -/
theorem bytes_per_second_exact_witness :
    bytes_per_second ⟨[100], 8, []⟩ 2 = .finite 400 := by
  have h := bytes_per_second_exact ⟨[100], 8, []⟩ 2 (by norm_num)
  rw [h]
  norm_num

/-- Claim C8 counterexample: at elapsed time exactly zero on a 100-element
array of 8-byte elements the rate computation does not fail — `np.prod`
makes the numerator a numpy scalar, so the division by 0.0 emits a
RuntimeWarning and evaluates to inf, not a ZeroDivisionError. -/
theorem bytes_per_second_zero_counterexample :
    bytes_per_second ⟨[100], 8, []⟩ 0 = NpFloat.inf := by
  decide

/-- Claim C8 (amended): the division in `ThroughputMeter.bytes_per_second`
is unguarded, and at elapsed time exactly zero it follows numpy float
semantics instead of failing: for every array the rate is inf whenever the
array's byte count is nonzero, and nan when it is zero. -/
theorem bytes_per_second_zero_elapsed (a : NDArr) :
    bytes_per_second a 0 =
      if totalBytes a = 0 then NpFloat.nan else NpFloat.inf := by
  simp [bytes_per_second, totalBytes]

/-- The write loop of `extract_iterative` preserves the buffer length. -/
theorem length_fillLoop (f : ℕ → ℚ) (l : List ℕ) (a : List ℚ) :
    (l.foldl (fun a i => a.set i (f i)) a).length = a.length := by
  induction l generalizing a with
  | nil => rfl
  | cons i l ih => simpa [List.foldl] using ih (a.set i (f i))

/-- After the write loop of `extract_iterative` over indices `0, ..., n-1`,
position `j < n` of a buffer of length at least `n` holds `f j`. -/
theorem getD_fillLoop (f : ℕ → ℚ) (n : ℕ) (a : List ℚ) (j : ℕ)
    (hj : j < n) (hn : n ≤ a.length) :
    ((List.range n).foldl (fun a i => a.set i (f i)) a).getD j 0 = f j := by
  induction n generalizing a with
  | zero => omega
  | succ m ih =>
    rw [List.range_succ, List.foldl_append]
    set b := (List.range m).foldl (fun a i => a.set i (f i)) a with hb
    have hblen : b.length = a.length := length_fillLoop f (List.range m) a
    simp only [List.foldl]
    rcases Nat.lt_or_ge j m with hjm | hjm
    · -- position j was already written by the inner loop and `set m` keeps it
      have hjb : j < (b.set m (f m)).length := by
        rw [List.length_set, hblen]; omega
      rw [List.getD_eq_getElem _ _ hjb, List.getElem_set]
      have hmj : ¬ m = j := by omega
      rw [if_neg hmj]
      have hjb2 : j < b.length := by rw [hblen]; omega
      rw [← List.getD_eq_getElem b 0 hjb2]
      exact ih a hjm (by omega)
    · -- j = m: this is exactly the element `set m (f m)` writes
      have hjm2 : j = m := by omega
      subst hjm2
      have hjb : j < (b.set j (f j)).length := by
        rw [List.length_set, hblen]; omega
      rw [List.getD_eq_getElem _ _ hjb, List.getElem_set, if_pos rfl]

/-- Claim C3: for zlen equal to the variable's time-axis length, the buffer
produced by `extract_iterative` has length zlen and agrees element by element
with the vector returned by `extract_direct`: the N single-element reads
compose the same slice as the one bulk read. -/
theorem extract_iterative_eq_direct (dst : Dataset) (var : String) (x y zlen : ℕ)
    (h : zlen = (dst.vars var).tlen) :
    (extract_iterative dst var x y zlen).data.length = zlen ∧
    ∀ i < zlen, (extract_iterative dst var x y zlen).data.getD i 0 =
      (extract_direct dst var x y).data.getD i 0 := by
  constructor
  · simpa [extract_iterative] using
      length_fillLoop (fun i => (dst.vars var).data i y x) (List.range zlen)
        (List.replicate zlen 0)
  · intro i hi
    have hleft : (extract_iterative dst var x y zlen).data.getD i 0 =
        (dst.vars var).data i y x := by
      simpa [extract_iterative] using
        getD_fillLoop (fun i => (dst.vars var).data i y x) zlen
          (List.replicate zlen 0) i hi (by simp)
    have hlen : i < ((List.range (dst.vars var).tlen).map
        (fun i => (dst.vars var).data i y x)).length := by
      simpa using h ▸ hi
    have hright : (extract_direct dst var x y).data.getD i 0 =
        (dst.vars var).data i y x := by
      show ((List.range (dst.vars var).tlen).map
        (fun i => (dst.vars var).data i y x)).getD i 0 = _
      rw [List.getD_eq_getElem _ _ hlen, List.getElem_map, List.getElem_range]
    rw [hleft, hright]

/-- A concrete stored variable used by witnesses: three timesteps, float32
storage (itemsize 4), value determined by the indices. -/
def sampleVar : VarData :=
  { tlen := 3, itemsize := 4, data := fun i y x => (i : ℚ) * 100 + (y : ℚ) * 10 + (x : ℚ) }

/-- A concrete dataset handle used by witnesses. -/
def sampleDst : Dataset := ⟨fun _ => sampleVar⟩

/-- Witness for C3: at the concrete dataset, variable of time length 3,
point (x, y) = (1, 2), the three iterative reads reproduce the direct slice. -/
theorem extract_iterative_eq_direct_witness :
    (extract_iterative sampleDst "pr" 1 2 3).data.length = 3 ∧
    ∀ i < 3, (extract_iterative sampleDst "pr" 1 2 3).data.getD i 0 =
      (extract_direct sampleDst "pr" 1 2).data.getD i 0 :=
  extract_iterative_eq_direct sampleDst "pr" 1 2 3 rfl

/-- The driver's running-average loop (lines 164-177): starting from
`moving_avg = 0.0`, each file index `i` updates by
`moving_avg * i / (i+1) + throughput / (i+1)` — but only when the current
`moving_avg` is truthy (`if moving_avg:`); when it is 0 the sample replaces
the average outright. -/
def runAvg : ℚ → ℕ → List ℚ → ℚ
  | avg, _, [] => avg
  | avg, i, s :: rest =>
    runAvg (if avg ≠ 0 then avg * (i : ℚ) / ((i : ℚ) + 1) + s / ((i : ℚ) + 1) else s)
      (i + 1) rest

/-- The value the driver prints as `Average:` after processing the given
per-file throughput samples in order. -/
def drive (samples : List ℚ) : ℚ := runAvg 0 0 samples

/-- Claim C1 counterexample: for the sample sequence [0, 10] the driver prints
10, not the arithmetic mean 5 — the truthiness guard `if moving_avg:` discards
the zero sample instead of averaging it in, so the claim fails as stated for
arbitrary sample sequences. -/
theorem drive_mean_counterexample :
    drive [0, 10] = 10 ∧
      drive [0, 10] ≠ ([0, 10] : List ℚ).sum / (([0, 10] : List ℚ).length : ℚ) := by
  constructor
  · norm_num [drive, runAvg]
  · norm_num [drive, runAvg]

/-- Invariant of the running-average loop: if the accumulator holds the exact
mean S/i of the i samples seen so far, all positive, and the remaining samples
are positive, the loop ends with the mean of all samples. -/
theorem runAvg_mean (rest : List ℚ) : ∀ (S : ℚ) (i : ℕ), 0 < S → 0 < i →
    (∀ s ∈ rest, 0 < s) →
    runAvg (S / (i : ℚ)) i rest = (S + rest.sum) / ((i : ℚ) + (rest.length : ℚ)) := by
  induction rest with
  | nil => intro S i _ _ _; simp [runAvg]
  | cons s rest ih =>
    intro S i hS hi hpos
    have hiQ : (0 : ℚ) < (i : ℚ) := by exact_mod_cast hi
    have havg : S / (i : ℚ) ≠ 0 := by positivity
    have hs : 0 < s := hpos s (by simp)
    have hstep : S / (i : ℚ) * (i : ℚ) / ((i : ℚ) + 1) + s / ((i : ℚ) + 1)
        = (S + s) / (((i : ℚ)) + 1) := by
      field_simp
    have hrec := ih (S + s) (i + 1) (by positivity) (by omega)
      (fun t ht => hpos t (by simp [ht]))
    rw [runAvg, if_pos havg, hstep]
    have hcast : ((i + 1 : ℕ) : ℚ) = (i : ℚ) + 1 := by push_cast; ring
    rw [← hcast, hrec]
    simp only [List.sum_cons, List.length_cons]
    push_cast
    ring_nf

/-- Claim C1 (amended): for every sequence of strictly positive per-file
throughput samples, the driver's final printed average equals the unweighted
arithmetic mean of the samples; in particular the running values after
[10], [10, 20], [10, 20, 30] are 10, 15 and 20. -/
theorem drive_mean (samples : List ℚ) (hpos : ∀ s ∈ samples, 0 < s) :
    drive samples = samples.sum / (samples.length : ℚ) ∧
    drive [10] = 10 ∧ drive [10, 20] = 15 ∧ drive [10, 20, 30] = 20 := by
  refine ⟨?_, by norm_num [drive, runAvg], by norm_num [drive, runAvg],
    by norm_num [drive, runAvg]⟩
  cases samples with
  | nil => simp [drive, runAvg]
  | cons s rest =>
    have hs : 0 < s := hpos s (by simp)
    have h0 : drive (s :: rest) = runAvg s 1 rest := by
      simp [drive, runAvg]
    have h1 : runAvg (s / ((1 : ℕ) : ℚ)) 1 rest
        = (s + rest.sum) / (((1 : ℕ) : ℚ) + (rest.length : ℚ)) :=
      runAvg_mean rest s 1 hs one_pos (fun t ht => hpos t (by simp [ht]))
    simp only [Nat.cast_one, div_one] at h1
    rw [h0, h1]
    simp only [List.sum_cons, List.length_cons]
    push_cast
    ring_nf

/-- Witness for C1 (amended): the samples [10, 20, 30] are positive and the
driver's final average over them is 20, their arithmetic mean. -/
theorem drive_mean_witness : drive [10, 20, 30] = 20 := by
  have h := drive_mean [10, 20, 30] (by norm_num)
  exact h.2.2.2

/-- The fixed candidate-variable set of `GriddedFile.measure` line 62. -/
def candidateVars : List String := ["pr", "tasmin", "tasmax"]

/-- Line 62 of `GriddedFile.measure`:
`choices = set(self.variables).intersection({'pr', 'tasmin', 'tasmax'})`. -/
def varChoices (vnames : List String) : List String :=
  vnames.dedup.filter (fun v => v ∈ candidateVars)

/-- Line 63 of `GriddedFile.measure`: `var = random.choice(tuple(choices))`.
`random.choice` on an empty sequence raises; otherwise it picks the element
at the random source's index. -/
def chooseVar (vnames : List String) (rng : ℕ) : Except Fault String :=
  if varChoices vnames = [] then .error .emptyChoice
  else .ok ((varChoices vnames).getD (rng % (varChoices vnames).length) "")

/-- The only error `chooseVar` can produce is the empty-choice failure. -/
theorem chooseVar_error_eq (vnames : List String) (rng : ℕ) (e : Fault)
    (h : chooseVar vnames rng = .error e) : e = .emptyChoice := by
  unfold chooseVar at h
  split_ifs at h with hc
  injection h with h
  exact h.symm

/-- A successful `chooseVar` picks an element of the intersection list. -/
theorem chooseVar_ok_mem (vnames : List String) (rng : ℕ) (v : String)
    (h : chooseVar vnames rng = .ok v) : v ∈ varChoices vnames := by
  unfold chooseVar at h
  split_ifs at h with hc
  injection h with h
  have hlen : 0 < (varChoices vnames).length := List.length_pos.mpr hc
  have hlt : rng % (varChoices vnames).length < (varChoices vnames).length :=
    Nat.mod_lt _ hlen
  rw [← h, List.getD_eq_getElem _ _ hlt]
  exact List.getElem_mem hlt

/-- When the intersection is a singleton, the choice is that element for
every random source. -/
theorem chooseVar_singleton (vnames : List String) (w : String) (rng : ℕ)
    (h : varChoices vnames = [w]) : chooseVar vnames rng = .ok w := by
  unfold chooseVar
  rw [h]
  have hne : ([w] : List String) ≠ [] := by simp
  rw [if_neg hne]
  simp [Nat.mod_one]

/-- Claim C5: the selected variable is always in the intersection of the
file's variable names with {pr, tasmin, tasmax}; selection fails exactly when
that intersection is empty; and on a singleton intersection the choice is the
one element regardless of the random source — in particular variables
{pr, tas} always yield pr. -/
theorem chooseVar_spec :
    (∀ (vnames : List String) (rng : ℕ) (v : String),
      chooseVar vnames rng = .ok v → v ∈ vnames ∧ v ∈ candidateVars) ∧
    (∀ (vnames : List String) (rng : ℕ),
      (∃ e, chooseVar vnames rng = .error e) ↔
        ∀ v ∈ vnames, v ∉ candidateVars) ∧
    (∀ (vnames : List String) (w : String) (rng : ℕ),
      varChoices vnames = [w] → chooseVar vnames rng = .ok w) ∧
    (∀ rng : ℕ, chooseVar ["pr", "tas"] rng = .ok "pr") := by
  refine ⟨?_, ?_, ?_, ?_⟩
  · intro vnames rng v h
    have hv := chooseVar_ok_mem vnames rng v h
    rw [varChoices, List.mem_filter] at hv
    refine ⟨List.mem_dedup.mp hv.1, by simpa using hv.2⟩
  · intro vnames rng
    constructor
    · rintro ⟨e, he⟩ v hv hcand
      unfold chooseVar at he
      split_ifs at he with hc
      have hmem : v ∈ varChoices vnames := by
        rw [varChoices, List.mem_filter]
        exact ⟨List.mem_dedup.mpr hv, by simpa using hcand⟩
      rw [hc] at hmem
      cases hmem
    · intro hnone
      refine ⟨.emptyChoice, ?_⟩
      unfold chooseVar
      have hc : varChoices vnames = [] := by
        rw [varChoices, List.filter_eq_nil_iff]
        intro v hv
        simpa using hnone v (List.mem_dedup.mp hv)
      rw [if_pos hc]
  · exact chooseVar_singleton
  · intro rng
    exact chooseVar_singleton ["pr", "tas"] "pr" rng (by decide)

/-- Witness for C5: with variables [pr, tas] and random index 7 the selection
returns pr, which lies in the file's variables and in the candidate set. -/
theorem chooseVar_spec_witness :
    chooseVar ["pr", "tas"] 7 = .ok "pr" ∧
      "pr" ∈ (["pr", "tas"] : List String) ∧ "pr" ∈ candidateVars := by
  have h := chooseVar_spec
  have hok := h.2.2.2 7
  exact ⟨hok, h.1 ["pr", "tas"] 7 "pr" hok⟩

/-- The observable state of a gridded file as the two backends expose it:
reported dimension names, variable names, the sizes of the lon/lat/time
dimensions, and the dataset handle's contents once opened. -/
structure FileMeta where
  dimensions : List String
  vnames : List String
  xlen : ℕ
  ylen : ℕ
  zlen : ℕ
  dst : Dataset

/-- `GriddedFile.measure` (lines 55-72).  The call opens the handle, asserts
both 'lat' and 'lon' are reported dimensions, takes the horizontal midpoint
`ceil(len/2) - 1` along each axis, randomly selects a candidate variable,
times one extraction, closes the handle, and only then computes the rate
(which itself cannot raise — see `bytes_per_second`).  The second component
of the result records whether the dataset handle is still open when the call
terminates: the asserts and the variable choice run between `open` and
`close`, so their failures leave the handle open. -/
def measure (f : FileMeta) (rng : ℕ) (elapsed : ℚ) (method : Method) :
    Except Fault NpFloat × Bool :=
  if "lat" ∉ f.dimensions then (.error .assertLat, true)
  else if "lon" ∉ f.dimensions then (.error .assertLon, true)
  else
    let x := (f.xlen + 1) / 2 - 1
    let y := (f.ylen + 1) / 2 - 1
    match chooseVar f.vnames rng with
    | .error e => (.error e, true)
    | .ok var =>
      let a := match method with
        | .direct => extract_direct f.dst var x y
        | .iterative => extract_iterative f.dst var x y f.zlen
      (.ok (bytes_per_second a elapsed), false)

/-- Exhaustive case analysis of a `measure` call: the missing-dimension
asserts and the empty variable choice fail with the handle open; past those,
the handle is closed and the call returns the computed rate. -/
theorem measure_cases (f : FileMeta) (rng : ℕ) (elapsed : ℚ) (method : Method) :
    ("lat" ∉ f.dimensions ∧ measure f rng elapsed method = (.error .assertLat, true)) ∨
    ("lat" ∈ f.dimensions ∧ "lon" ∉ f.dimensions ∧
      measure f rng elapsed method = (.error .assertLon, true)) ∨
    ("lat" ∈ f.dimensions ∧ "lon" ∈ f.dimensions ∧
      ((chooseVar f.vnames rng = .error .emptyChoice ∧
          measure f rng elapsed method = (.error .emptyChoice, true)) ∨
        (∃ v, chooseVar f.vnames rng = .ok v ∧
          ∃ r, measure f rng elapsed method = (.ok r, false)))) := by
  by_cases hlat : "lat" ∈ f.dimensions
  · by_cases hlon : "lon" ∈ f.dimensions
    · refine Or.inr (Or.inr ⟨hlat, hlon, ?_⟩)
      cases hcv : chooseVar f.vnames rng with
      | error e =>
        have he := chooseVar_error_eq f.vnames rng e hcv
        subst he
        exact Or.inl ⟨rfl, by simp [measure, hlat, hlon, hcv]⟩
      | ok v =>
        exact Or.inr ⟨v, rfl, by simp [measure, hlat, hlon, hcv]⟩
    · exact Or.inr (Or.inl ⟨hlat, hlon, by simp [measure, hlat, hlon]⟩)
  · exact Or.inl ⟨hlat, by simp [measure, hlat]⟩

/-- Claim C4: `GriddedFile.measure` fails on its dimension assertions exactly
when 'lat' or 'lon' is absent from the reported dimensions, and proceeds past
them only when both are present. -/
theorem measure_requires_lat_lon (f : FileMeta) (rng : ℕ) (elapsed : ℚ)
    (method : Method) :
    ("lat" ∉ f.dimensions ∨ "lon" ∉ f.dimensions) ↔
      ((measure f rng elapsed method).1 = .error .assertLat ∨
        (measure f rng elapsed method).1 = .error .assertLon) := by
  rcases measure_cases f rng elapsed method with
    ⟨hlat, hm⟩ | ⟨hlat, hlon, hm⟩ | ⟨hlat, hlon, hrest⟩
  · simp [hm, hlat]
  · simp [hm, hlat, hlon]
  · constructor
    · rintro (h | h)
      · exact absurd hlat h
      · exact absurd hlon h
    · intro h
      rcases hrest with ⟨_, hm⟩ | ⟨v, _, r, hm⟩ <;>
        rw [hm] at h <;> rcases h with h | h <;> cases h

/-- A concrete file reporting no 'lat' dimension, used to exhibit the
assertion failure and the leaked handle. -/
def noLatFile : FileMeta :=
  { dimensions := ["lon", "time"], vnames := ["pr"],
    xlen := 4, ylen := 4, zlen := 3, dst := sampleDst }

/-- Claim C7 counterexample: on a file whose dimensions are [lon, time] the
measure call terminates (with the 'lat' assertion failure), yet the dataset
handle opened at the start of the call is still open — the claim that every
terminated call leaves the handle closed is false. -/
theorem measure_handle_counterexample :
    (measure noLatFile 0 1 .direct).1 = .error .assertLat ∧
      (measure noLatFile 0 1 .direct).2 = true := by
  constructor <;> rfl

/-- Claim C7 (amended): the handle is still open at termination exactly when
the call fails before reaching `self.close()` — on a missing-dimension
assertion or the empty variable choice; every completed measurement closes
the handle before computing the rate. -/
theorem measure_handle_amended (f : FileMeta) (rng : ℕ) (elapsed : ℚ)
    (method : Method) :
    (measure f rng elapsed method).2 = true ↔
      ((measure f rng elapsed method).1 = .error .assertLat ∨
        (measure f rng elapsed method).1 = .error .assertLon ∨
        (measure f rng elapsed method).1 = .error .emptyChoice) := by
  rcases measure_cases f rng elapsed method with
    ⟨hlat, hm⟩ | ⟨hlat, hlon, hm⟩ | ⟨hlat, hlon, hrest⟩
  · simp [hm]
  · simp [hm]
  · rcases hrest with ⟨_, hm⟩ | ⟨v, _, r, hm⟩ <;> simp [hm]

/-- Outcome of a `mem_limiter` scope: the MemoryError raised before the body,
the one raised after it, or a silent pass. -/
inductive MemOutcome where
  | memErrorBefore
  | memErrorAfter
  | passed
deriving DecidableEq

/-- `mem_limiter` from utils.py (lines 46-52): fails when the data-segment
usage strictly exceeds the ceiling on entry, otherwise yields to the body and
fails afterwards exactly when the usage strictly exceeds the ceiling on exit.
The body is modelled as a function from the entry usage to the exit usage;
the second component records whether the body was executed. -/
def mem_limiter (bytes_ : ℕ) (entryUsage : ℕ) (body : ℕ → ℕ) :
    MemOutcome × Bool :=
  if entryUsage > bytes_ then (.memErrorBefore, false)
  else if body entryUsage > bytes_ then (.memErrorAfter, true)
  else (.passed, true)

/-- Claim C6: `mem_limiter` raises without running the body when usage already
strictly exceeds the ceiling on entry; otherwise it runs the body and raises
afterwards exactly when exit usage strictly exceeds the ceiling, raising
nothing when usage is within the ceiling both before and after. -/
theorem mem_limiter_spec (bytes_ entryUsage : ℕ) (body : ℕ → ℕ) :
    (entryUsage > bytes_ →
      mem_limiter bytes_ entryUsage body = (.memErrorBefore, false)) ∧
    (entryUsage ≤ bytes_ →
      (mem_limiter bytes_ entryUsage body).2 = true ∧
      ((mem_limiter bytes_ entryUsage body).1 = .memErrorAfter ↔
        body entryUsage > bytes_) ∧
      (body entryUsage ≤ bytes_ →
        mem_limiter bytes_ entryUsage body = (.passed, true))) := by
  unfold mem_limiter
  constructor
  · intro h
    rw [if_pos h]
  · intro h
    rw [if_neg (by omega)]
    by_cases hafter : body entryUsage > bytes_
    · rw [if_pos hafter]
      refine ⟨rfl, by simpa using hafter, ?_⟩
      intro hle
      omega
    · rw [if_neg hafter]
      exact ⟨rfl, by simpa using hafter, fun _ => rfl⟩

/-- Witness for C6: ceiling 10 — entry usage 20 fails before the body; entry
usage 5 with a body ending at 20 fails after the body ran; entry usage 5 with
a body ending at 7 passes. -/
theorem mem_limiter_spec_witness :
    mem_limiter 10 20 (fun u => u) = (.memErrorBefore, false) ∧
      mem_limiter 10 5 (fun _ => 20) = (.memErrorAfter, true) ∧
      mem_limiter 10 5 (fun _ => 7) = (.passed, true) := by
  refine ⟨(mem_limiter_spec 10 20 (fun u => u)).1 (by norm_num), ?_, ?_⟩
  · have h := ((mem_limiter_spec 10 5 (fun _ => 20)).2 (by norm_num))
    have h1 := h.2.1.mpr (by norm_num)
    have h2 := h.1
    cases hm : mem_limiter 10 5 (fun _ => 20) with
    | mk o b =>
      rw [hm] at h1 h2
      simp only at h1 h2
      rw [h1, h2]
  · exact ((mem_limiter_spec 10 5 (fun _ => 7)).2 (by norm_num)).2.2 (by norm_num)

/-- The value `args.num_files` carries at the sampling loop: an int when the
argparse default 5 is used, a string when `-n`/`--num_files` was supplied on
the command line (line 143 declares no type converter). -/
inductive NumFilesArg where
  | asInt (n : ℕ)
  | asStr (s : String)

/-- What `args.num_files` is after parsing: the int 5 by default, or the raw
command-line string when supplied. -/
def numFilesValue : Option String → NumFilesArg
  | none => .asInt 5
  | some s => .asStr s

/-- The `--directory` sampling loop body (lines 155-160): `k` remaining
iterations of picking a random file from the remaining choices, appending it
and removing it from the pool; `random.choice` on an empty pool raises. -/
def sampleLoop (rng : ℕ → ℕ) : ℕ → List String → List String →
    Except Fault (List String)
  | 0, _, acc => .ok acc.reverse
  | k + 1, choices, acc =>
    if choices = [] then .error .indexError
    else
      let f := choices.getD (rng acc.length % choices.length) ""
      sampleLoop rng k (choices.erase f) (f :: acc)

/-- The driver's `--directory` branch (lines 154-160): `range(args.num_files)`
raises TypeError when `num_files` is a string; with an int it runs the
sampling loop that many times. -/
def sampleFiles (dir : List String) (rng : ℕ → ℕ) :
    NumFilesArg → Except Fault (List String)
  | .asStr _ => .error .typeError
  | .asInt n => sampleLoop rng n dir []

/-- The sampling loop succeeds and returns exactly k files whenever the pool
holds at least k names. -/
theorem sampleLoop_ok (rng : ℕ → ℕ) :
    ∀ (k : ℕ) (choices acc : List String), k ≤ choices.length →
      ∃ fs, sampleLoop rng k choices acc = .ok fs ∧
        fs.length = k + acc.length := by
  intro k
  induction k with
  | zero =>
    intro choices acc _
    exact ⟨acc.reverse, rfl, by simp⟩
  | succ m ih =>
    intro choices acc hk
    have hne : choices ≠ [] := by
      intro hnil
      rw [hnil] at hk
      simp at hk
    have hlen : 0 < choices.length := List.length_pos.mpr hne
    have hlt : rng acc.length % choices.length < choices.length :=
      Nat.mod_lt _ hlen
    set f := choices.getD (rng acc.length % choices.length) "" with hf
    have hmem : f ∈ choices := by
      rw [hf, List.getD_eq_getElem _ _ hlt]
      exact List.getElem_mem hlt
    have herase : (choices.erase f).length = choices.length - 1 :=
      List.length_erase_of_mem hmem
    obtain ⟨fs, hfs, hfslen⟩ := ih (choices.erase f) (f :: acc) (by omega)
    refine ⟨fs, ?_, ?_⟩
    · rw [sampleLoop, if_neg hne]
      exact hfs
    · rw [hfslen, List.length_cons]
      omega

/-- Claim C9: with `--directory`, an explicitly supplied `--num_files` value
makes the sampling loop fail with a TypeError (the argument is parsed as a
string but used as an integer range bound), while the unsupplied default 5
samples 5 files from a directory of at least 5 names without failing on this
account. -/
theorem num_files_type_confusion (dir : List String) (rng : ℕ → ℕ)
    (s : String) (hdir : 5 ≤ dir.length) :
    sampleFiles dir rng (numFilesValue (some s)) = .error .typeError ∧
      ∃ fs, sampleFiles dir rng (numFilesValue none) = .ok fs ∧
        fs.length = 5 := by
  refine ⟨rfl, ?_⟩
  obtain ⟨fs, hfs, hlen⟩ := sampleLoop_ok rng 5 dir [] hdir
  exact ⟨fs, hfs, by simpa using hlen⟩

/-- Witness for C9: a five-name directory with `-n "7"` supplied fails with
the TypeError, and with the default it yields five sampled files. -/
theorem num_files_type_confusion_witness :
    sampleFiles ["a", "b", "c", "d", "e"] (fun _ => 0)
        (numFilesValue (some "7")) = .error .typeError ∧
      ∃ fs, sampleFiles ["a", "b", "c", "d", "e"] (fun _ => 0)
        (numFilesValue none) = .ok fs ∧ fs.length = 5 :=
  num_files_type_confusion ["a", "b", "c", "d", "e"] (fun _ => 0) "7"
    (by norm_num)

/-- Claim C10: the buffer `extract_iterative` returns always has 8-byte
(float64) elements — `np.empty` with no dtype — so the byte count fed to the
throughput rate is zlen × 8, while `extract_direct` keeps the stored
variable's native element size, giving tlen × itemsize bytes; for a 4-byte
variable read over its full time axis the two byte totals differ by a factor
of 2. -/
theorem iterative_counts_float64_bytes (dst : Dataset) (var : String)
    (x y zlen : ℕ) :
    (extract_iterative dst var x y zlen).itemsize = 8 ∧
    totalBytes (extract_iterative dst var x y zlen) = zlen * 8 ∧
    totalBytes (extract_direct dst var x y) =
      (dst.vars var).tlen * (dst.vars var).itemsize ∧
    ((dst.vars var).itemsize = 4 → zlen = (dst.vars var).tlen →
      totalBytes (extract_iterative dst var x y zlen) =
        2 * totalBytes (extract_direct dst var x y)) := by
  refine ⟨rfl, by simp [totalBytes, extract_iterative],
    by simp [totalBytes, extract_direct], ?_⟩
  intro hsize hz
  simp [totalBytes, extract_iterative, extract_direct, hsize, hz]
  ring

/-- Witness for C10: the concrete float32 variable with three timesteps —
the iterative byte total 24 is twice the direct byte total 12. -/
theorem iterative_counts_float64_bytes_witness :
    totalBytes (extract_iterative sampleDst "pr" 1 2 3) =
      2 * totalBytes (extract_direct sampleDst "pr" 1 2) :=
  (iterative_counts_float64_bytes sampleDst "pr" 1 2 3).2.2.2 rfl rfl

end NetcdfTutorial
